import Mathlib

/-!
Verification of the moberry repository: a shallow embedding of the cart
state-management context (`StateContext`) and of the insights-page article
catalog view model (`InsightsPage`), with theorems settling the frozen
claims about them.
-/

namespace Moberry

/-! ## Cart data model (src/unnamed/part_003) -/

/-- A cart line item / product, mirroring the `Product` interface. -/
structure Product where
  id : String
  name : String
  price : Int
  quantity : Int
  weight : String
  image : String
deriving DecidableEq, Repr

/-- The cart-relevant slice of the `StateContext` provider state:
line items, the two incrementally maintained aggregates, and the
independent quantity-selector counter `qty`. -/
structure CartState where
  cartItems : List Product
  totalPrice : Int
  totalQuantities : Int
  qty : Int
deriving DecidableEq, Repr

/-- Initial provider state: empty cart, zero totals, `qty = 1`. -/
def initialCartState : CartState :=
  { cartItems := [], totalPrice := 0, totalQuantities := 0, qty := 1 }

/-- The composite key computed at the top of `onAdd`:
`` `${product.id}-${product.weight}` ``. -/
def uniqueIdOf (product : Product) : String :=
  product.id ++ "-" ++ product.weight

/-- The number interpolated into the `toast.success` message of `onAdd`:
the session quantity selector `qty`, not the `quantity` argument. -/
def displayedAddQty (s : CartState) (_product : Product) (_quantity : Int) : Int :=
  s.qty

/-- The `toast.success` message emitted by `onAdd`:
`` `${qty} ${product.name} (${product.weight}) added to the cart.` ``. -/
def onAddToastMessage (s : CartState) (product : Product) (quantity : Int) : String :=
  toString (displayedAddQty s product quantity) ++ " " ++ product.name ++ " (" ++
    product.weight ++ ") added to the cart."

/-- The handler `onAdd(product, quantity)`.  Returns the new state together with the
product argument as left after the call: in the not-in-cart branch the
source mutates the object passed by the caller (`product.quantity = quantity;
product.id = uniqueId`) before pushing a copy, so the returned product
models that in-place mutation. -/
def onAdd (s : CartState) (product : Product) (quantity : Int) : CartState × Product :=
  let uniqueId := uniqueIdOf product
  let checkProductInCart := s.cartItems.find? (fun item => item.id == uniqueId)
  let s1 : CartState :=
    { s with totalPrice := s.totalPrice + product.price * quantity,
             totalQuantities := s.totalQuantities + quantity }
  match checkProductInCart with
  | some _ =>
    let updatedCartItems := s1.cartItems.map (fun cartProduct =>
      if uniqueId == cartProduct.id then
        { cartProduct with quantity := cartProduct.quantity + quantity }
      else
        cartProduct)
    ({ s1 with cartItems := updatedCartItems }, product)
  | none =>
    let product1 : Product := { product with quantity := quantity, id := uniqueId }
    ({ s1 with cartItems := s1.cartItems ++ [product1] }, product1)

/-- The handler `onRemove(product)`: looks the line item up by `product.id`; absent
ids are a silent no-op, present ones are filtered out with the totals
decreased by the contribution of the found item. -/
def onRemove (s : CartState) (product : Product) : CartState :=
  match s.cartItems.find? (fun item => item.id == product.id) with
  | none => s
  | some foundProduct =>
    { s with cartItems := s.cartItems.filter (fun item => !(item.id == product.id)),
             totalPrice := s.totalPrice - foundProduct.price * foundProduct.quantity,
             totalQuantities := s.totalQuantities - foundProduct.quantity }

/-- The direction argument of `toggleCartItemQuanitity` (inc or dec). -/
inductive ToggleValue where
  | inc
  | dec
deriving DecidableEq, Repr

/-- The handler `toggleCartItemQuanitity(id, value)`: no-op on an unknown id; on
`inc` the found item is removed by filter and re-inserted at its old
index with quantity + 1; on `dec` the same with quantity - 1, but only
when the found quantity is strictly greater than 1, otherwise nothing
is updated. -/
def toggleCartItemQuanitity (s : CartState) (id : String) (value : ToggleValue) : CartState :=
  match s.cartItems.find? (fun item => item.id == id) with
  | none => s
  | some foundProduct =>
    let index := s.cartItems.findIdx (fun product => product.id == id)
    let newCartItems := s.cartItems.filter (fun item => !(item.id == id))
    match value with
    | .inc =>
      { s with
          cartItems := newCartItems.insertIdx index
            { foundProduct with quantity := foundProduct.quantity + 1 },
          totalPrice := s.totalPrice + foundProduct.price,
          totalQuantities := s.totalQuantities + 1 }
    | .dec =>
      if foundProduct.quantity > 1 then
        { s with
            cartItems := newCartItems.insertIdx index
              { foundProduct with quantity := foundProduct.quantity - 1 },
            totalPrice := s.totalPrice - foundProduct.price,
            totalQuantities := s.totalQuantities - 1 }
      else
        s

/-- The handler `incQty`: the independent quantity-selector counter, incremented. -/
def incQty (s : CartState) : CartState :=
  { s with qty := s.qty + 1 }

/-- The handler `decQty`: the quantity-selector counter, decremented but clamped at 1. -/
def decQty (s : CartState) : CartState :=
  if s.qty - 1 < 1 then { s with qty := 1 } else { s with qty := s.qty - 1 }

/-! ## Cart operation sequences -/

/-- One cart mutation, as invoked through the context. -/
inductive CartOp where
  | add (product : Product) (quantity : Int)
  | remove (product : Product)
  | toggle (id : String) (value : ToggleValue)
deriving Repr

/-- Apply one operation to the state (the mutated product returned by
`onAdd` is dropped: each operation of a sequence carries its own
argument object). -/
def applyOp (s : CartState) : CartOp → CartState
  | .add p q => (onAdd s p q).1
  | .remove p => onRemove s p
  | .toggle id v => toggleCartItemQuanitity s id v

/-- Apply a sequence of operations left to right. -/
def applyOps (s : CartState) (ops : List CartOp) : CartState :=
  ops.foldl applyOp s

/-- An operation does not target a nonexistent line item: `remove` and
`toggle` must name an id present in the cart; `add` is always valid. -/
def validOp (s : CartState) : CartOp → Prop
  | .add _ _ => True
  | .remove p => ∃ it ∈ s.cartItems, it.id = p.id
  | .toggle id _ => ∃ it ∈ s.cartItems, it.id = id

/-- Every operation of the sequence is valid in the state it is applied to. -/
def validOps : CartState → List CartOp → Prop
  | _, [] => True
  | s, op :: rest => validOp s op ∧ validOps (applyOp s op) rest

/-- An `add` that merges into an existing line item passes the same price
as the stored item (other operations are unconstrained). -/
def priceConsistentOp (s : CartState) : CartOp → Prop
  | .add p _ => ∀ it ∈ s.cartItems, it.id = uniqueIdOf p → it.price = p.price
  | .remove _ => True
  | .toggle _ _ => True

/-- Price consistency along a whole sequence. -/
def priceConsistentOps : CartState → List CartOp → Prop
  | _, [] => True
  | s, op :: rest => priceConsistentOp s op ∧ priceConsistentOps (applyOp s op) rest

/-- The sequence consists only of `add` operations. -/
def addOnly : List CartOp → Prop
  | [] => True
  | .add _ _ :: rest => addOnly rest
  | .remove _ :: _ => False
  | .toggle _ _ :: _ => False

/-- Sum of the quantities of all `add` operations in the sequence. -/
def sumAddQty : List CartOp → Int
  | [] => 0
  | .add _ q :: rest => q + sumAddQty rest
  | _ :: rest => sumAddQty rest

/-- Sum of price × quantity over all `add` operations in the sequence. -/
def sumAddPrice : List CartOp → Int
  | [] => 0
  | .add p q :: rest => p.price * q + sumAddPrice rest
  | _ :: rest => sumAddPrice rest

/-- Sum of the quantities of the `add` operations whose composite key is `k`. -/
def sumAddQtyKey (k : String) : List CartOp → Int
  | [] => 0
  | .add p q :: rest => (if uniqueIdOf p = k then q else 0) + sumAddQtyKey k rest
  | _ :: rest => sumAddQtyKey k rest

/-- Sum of item.quantity over a line-item collection. -/
def sumQuantities (l : List Product) : Int :=
  (l.map (fun it => it.quantity)).sum

/-- Sum of item.price × item.quantity over a line-item collection. -/
def sumPrices (l : List Product) : Int :=
  (l.map (fun it => it.price * it.quantity)).sum

/-- Number of line items carrying the composite key `k`. -/
def countKey (l : List Product) (k : String) : Nat :=
  (l.filter (fun it => it.id == k)).length

/-- Total quantity stored under the composite key `k`. -/
def qtyKey (l : List Product) (k : String) : Int :=
  ((l.filter (fun it => it.id == k)).map (fun it => it.quantity)).sum

/-- The line-item ids of a cart are pairwise distinct. -/
def NodupIds (l : List Product) : Prop :=
  (l.map Product.id).Nodup

/-- Any `add` operation of the sequence carries quantity at least 1
(other operations are unconstrained). -/
def opAddQtyPos : CartOp → Prop
  | .add _ q => 1 ≤ q
  | .remove _ => True
  | .toggle _ _ => True

/-- The product of the worked example of the spec:
`{id:"p1", price:100, weight:"500g"}`. -/
def exProd : Product :=
  { id := "p1", name := "Blueberries", price := 100, quantity := 1,
    weight := "500g", image := "/images/p1.jpg" }

/-- A product sharing the composite key of `exProd` but carrying a different
price, used to exhibit aggregate drift. -/
def exProdCheap : Product :=
  { exProd with price := 50 }

/-! ## Substring matching (JavaScript `String.prototype.includes`) -/

/-- Here `startsWithL needle hay` holds when the character list `hay` begins with `needle`. -/
def startsWithL : List Char → List Char → Bool
  | [], _ => true
  | _ :: _, [] => false
  | a :: as, b :: bs => a == b && startsWithL as bs

/-- Here `containsL needle hay` holds when `needle` occurs contiguously inside `hay`. -/
def containsL (needle : List Char) : List Char → Bool
  | [] => needle.isEmpty
  | b :: bs => startsWithL needle (b :: bs) || containsL needle bs

/-- The JavaScript `hay.includes(needle)` on strings. -/
def strIncludes (hay needle : String) : Bool :=
  containsL needle.data hay.data

/-- Case-insensitive containment of `needle` in `hay`: some decomposition of the
lower-cased `hay` exhibits the lower-cased `needle` as a contiguous run. -/
def ciContains (hay needle : String) : Prop :=
  ∃ pre post : List Char, hay.toLower.data = pre ++ needle.toLower.data ++ post

/-! ## Article catalog data model (src/app/insights/page.tsx) -/

/-- Provenance of an article record: static or pseo. -/
inductive ArticleSource where
  | static
  | pseo
deriving DecidableEq, Repr

/-- The `Article` interface of the insights page. -/
structure Article where
  id : String
  slug : String
  title : String
  excerpt : String
  date : String
  readTime : String
  category : String
  image : String
  tags : List String
  source : ArticleSource
deriving DecidableEq, Repr

/-- The compiled-in `staticArticles` list, in source order. -/
def staticArticles : List Article := [
  { id := "1",
    slug := "global-blueberry-price-trends",
    title := "Global Blueberry Wholesale Price Trends 2025-2035",
    excerpt := "Market analysis reveals 6-7.2% CAGR growth driven by increasing global demand and health consciousness. Discover the factors shaping blueberry prices over the next decade.",
    date := "December 2024",
    readTime := "8 min read",
    category := "Market Analysis",
    image := "/images/Blueberry Lifecycle.jpg",
    tags := ["Price Trends", "Market Analysis", "Investment"],
    source := .static },
  { id := "6",
    slug := "google-trends-blueberry-demand-india",
    title := "Google Trends Reveal 9% Growth in Blueberry Interest: India\x27s Rising Opportunity",
    excerpt := "Google search data shows 8.5M monthly searches for blueberries with 9% year-over-year growth, highlighting massive untapped potential in the Indian market as global demand soars.",
    date := "December 2024",
    readTime := "6 min read",
    category := "Market Research",
    image := "/images/Blueberry Plant in a Polyhouse.jpg",
    tags := ["Google Trends", "Market Demand", "India Opportunity"],
    source := .static },
  { id := "2",
    slug := "blueberry-farming-india",
    title := "Why Blueberry Farming is the Future of Agriculture in India",
    excerpt := "Explore how blueberry cultivation is transforming Indian agriculture with high returns, sustainable practices, and growing domestic demand.",
    date := "December 2024",
    readTime := "6 min read",
    category := "Farming Guide",
    image := "/images/Blueberry Rows in Polytunnel in Fruiting Phase.jpg",
    tags := ["India", "Farming", "Sustainability"],
    source := .static },
  { id := "3",
    slug := "health-benefits-blueberries",
    title := "The Science Behind Blueberries: Health Benefits That Drive Demand",
    excerpt := "From antioxidants to brain health, discover why health-conscious consumers are driving unprecedented demand for blueberries worldwide.",
    date := "December 2024",
    readTime := "5 min read",
    category := "Health & Nutrition",
    image := "/images/Blueberry Pudding.jpg",
    tags := ["Health", "Nutrition", "Consumer Trends"],
    source := .static },
  { id := "4",
    slug := "blueberry-varieties-india",
    title := "Best Blueberry Varieties for Indian Climate: A Comprehensive Guide",
    excerpt := "Learn about the most suitable blueberry cultivars for different Indian regions, their yield potential, and climate requirements.",
    date := "December 2024",
    readTime := "7 min read",
    category := "Technical Guide",
    image := "/images/The Life Cycle of a Blueberry.jpeg",
    tags := ["Varieties", "Climate", "Technical"],
    source := .static },
  { id := "5",
    slug := "roi-analysis-blueberry-farming",
    title := "ROI Analysis: Blueberry Farming vs Traditional Crops",
    excerpt := "A detailed financial comparison showing why blueberry farming offers 5X returns compared to traditional Indian crops.",
    date := "December 2024",
    readTime := "10 min read",
    category := "Financial Analysis",
    image := "/images/hero-desktop.jpg",
    tags := ["ROI", "Financial", "Comparison"],
    source := .static },
  { id := "12",
    slug := "blueberry-export-opportunities-india",
    title := "India\x27s Blueberry Export Potential: Tapping Global Markets",
    excerpt := "Explore the untapped potential of blueberry exports from India to international markets. Learn about global demand, quality standards, and profit margins.",
    date := "December 2024",
    readTime := "8 min read",
    category := "Export Strategy",
    image := "/images/Blueberry Lifecycle.jpg",
    tags := ["Export", "Global Markets", "International Trade"],
    source := .static },
  { id := "13",
    slug := "climate-controlled-farming-benefits",
    title := "Climate-Controlled Blueberry Farming: 5X Higher Yields",
    excerpt := "Discover how polyhouse cultivation and climate control systems boost blueberry yields by 500% compared to open-field farming.",
    date := "December 2024",
    readTime := "6 min read",
    category := "Technology",
    image := "/images/Blueberry Plant in a Polyhouse.jpg",
    tags := ["Climate Control", "Polyhouse", "Technology"],
    source := .static },
  { id := "14",
    slug := "government-subsidies-blueberry-farming",
    title := "Government Subsidies for Blueberry Farming: Save Up to 50%",
    excerpt := "Complete guide to agricultural subsidies, grants, and support schemes available for blueberry farming in India. Reduce your investment by up to 50%.",
    date := "December 2024",
    readTime := "9 min read",
    category := "Government Schemes",
    image := "/images/Blueberry Rows in Polytunnel in Fruiting Phase.jpg",
    tags := ["Subsidies", "Government", "Financial Support"],
    source := .static },
  { id := "15",
    slug := "organic-blueberry-certification-india",
    title := "Organic Blueberry Certification: Premium Pricing Strategy",
    excerpt := "Learn how organic certification can increase your blueberry prices by 40-60%. Step-by-step guide to organic farming and certification process.",
    date := "December 2024",
    readTime := "7 min read",
    category := "Organic Farming",
    image := "/images/The Life Cycle of a Blueberry.jpeg",
    tags := ["Organic", "Certification", "Premium Pricing"],
    source := .static },
  { id := "7",
    slug := "../tea-estate-partnership",
    title := "Tea Estate Partnership: Convert Your Tea Garden to Blueberry Farm",
    excerpt := "Transform your tea estate into a high-yield blueberry farm with 6x higher profits. Explore sub-lease, joint venture, or land sale options with 20-35% ROI.",
    date := "December 2024",
    readTime := "12 min read",
    category := "Partnership Opportunities",
    image := "/images/Blueberry Plant in a Polyhouse.jpg",
    tags := ["Tea Estate", "Partnership", "Land Conversion"],
    source := .static },
  { id := "8",
    slug := "../investment/west-bengal/siliguri",
    title := "Blueberry Farming Investment in Siliguri: Complete Guide",
    excerpt := "Discover why Siliguri offers ideal conditions for blueberry farming with excellent climate, soil pH, and government support. Calculate your ROI for this emerging opportunity.",
    date := "December 2024",
    readTime := "10 min read",
    category := "Location Investment",
    image := "/images/The Life Cycle of a Blueberry.jpeg",
    tags := ["Siliguri", "West Bengal", "Investment Calculator"],
    source := .static },
  { id := "9",
    slug := "../investment/assam/guwahati",
    title := "Guwahati Blueberry Farm Investment: Northeast India Opportunity",
    excerpt := "Explore blueberry farming investment opportunities in Guwahati with detailed climate analysis, soil conditions, and projected returns in Assam\x27s agricultural hub.",
    date := "December 2024",
    readTime := "10 min read",
    category := "Location Investment",
    image := "/images/Blueberry Rows in Polytunnel in Fruiting Phase.jpg",
    tags := ["Guwahati", "Assam", "Northeast India"],
    source := .static },
  { id := "10",
    slug := "../investment/meghalaya/shillong",
    title := "Shillong Blueberry Cultivation: Hill Station Farming Advantage",
    excerpt := "Leverage Shillong\x27s unique hill climate and acidic soil for premium blueberry cultivation. Learn about Meghalaya\x27s agricultural policies and investment incentives.",
    date := "December 2024",
    readTime := "9 min read",
    category := "Location Investment",
    image := "/images/Blueberry Plant in a Polyhouse.jpg",
    tags := ["Shillong", "Meghalaya", "Hill Station Farming"],
    source := .static },
  { id := "11",
    slug := "../investment/sikkim/gangtok",
    title := "Gangtok Blueberry Farming: High-Altitude Organic Advantage",
    excerpt := "Discover why Gangtok\x27s high-altitude climate and organic farming tradition make it perfect for premium blueberry cultivation with excellent export potential.",
    date := "December 2024",
    readTime := "9 min read",
    category := "Location Investment",
    image := "/images/Blueberry Lifecycle.jpg",
    tags := ["Gangtok", "Sikkim", "High Altitude"],
    source := .static }
]

/-- Shape of one record returned by `/api/seo/all-pages`. -/
structure SeoPage where
  id : String
  state : String
  city : String
  metaTitle : String
  metaDescription : String
  createdAt : String
deriving DecidableEq, Repr

/-- The regex replacement of whitespace runs by hyphens, on a character list: each
maximal run of whitespace becomes a single hyphen (the `inRun` flag
records that the current run has already emitted its hyphen). -/
def hyphenateCore : Bool → List Char → List Char
  | _, [] => []
  | inRun, c :: rest =>
    if c.isWhitespace then
      if inRun then hyphenateCore true rest
      else '-' :: hyphenateCore true rest
    else
      c :: hyphenateCore false rest

/-- The whitespace-run-to-hyphen replacement on a string. -/
def hyphenate (s : String) : String :=
  ⟨hyphenateCore false s.data⟩

/-- The four stock image file names of `convertPSEOToArticle`. -/
def imageNames : List String :=
  ["Blueberry Lifecycle.jpg", "Blueberry Plant in a Polyhouse.jpg",
   "Blueberry Rows in Polytunnel in Fruiting Phase.jpg", "The Life Cycle of a Blueberry.jpeg"]

/-- The converter `convertPSEOToArticle`.  The two environment effects are passed as
oracles: `pick` stands for the `Math.floor(Math.random() * 4)` draw and
`fmtDate` for `new Date(createdAt).toLocaleDateString(...)`. -/
def convertPSEOToArticle (pick : Nat) (fmtDate : String → String) (seoPage : SeoPage) : Article :=
  { id := seoPage.id,
    slug := "../investment/" ++ hyphenate seoPage.state.toLower ++ "/" ++
      hyphenate seoPage.city.toLower,
    title := seoPage.metaTitle,
    excerpt := seoPage.metaDescription,
    date := fmtDate seoPage.createdAt,
    readTime := "10 min read",
    category := "Location Investment",
    image := "/images/" ++ (imageNames.getD (pick % 4) ""),
    tags := [seoPage.city, seoPage.state, "Investment Guide"],
    source := .pseo }

/-- The view-model state of `InsightsPage`. -/
structure CatalogState where
  searchQuery : String
  selectedCategory : String
  currentPage : Nat
  pseoPages : List Article
  loading : Bool
deriving DecidableEq, Repr

/-- Initial page state: empty search, category `"All"`, page 1, no
remote records, loading. -/
def initCatalogState : CatalogState :=
  { searchQuery := "", selectedCategory := "All", currentPage := 1,
    pseoPages := [], loading := true }

/-- The constant `itemsPerPage`. -/
def itemsPerPage : Nat := 12

/-- The merge `allArticles = [...staticArticles, ...pseoPages]`. -/
def allArticles (st : CatalogState) : List Article :=
  staticArticles ++ st.pseoPages

/-- The search half of the filter predicate: case-insensitive substring
match of the query against title, excerpt, or any tag. -/
def matchesSearch (q : String) (article : Article) : Bool :=
  strIncludes article.title.toLower q.toLower ||
    strIncludes article.excerpt.toLower q.toLower ||
    article.tags.any (fun tag => strIncludes tag.toLower q.toLower)

/-- The category half of the filter predicate: `"All"` matches
everything, otherwise exact equality. -/
def matchesCategory (c : String) (article : Article) : Bool :=
  c == "All" || article.category == c

/-- The derived `filteredArticles`. -/
def filteredArticles (st : CatalogState) : List Article :=
  (allArticles st).filter (fun article =>
    matchesSearch st.searchQuery article && matchesCategory st.selectedCategory article)

/-- The derived `totalFilteredPages = Math.ceil(filteredArticles.length / itemsPerPage)`. -/
def totalFilteredPages (st : CatalogState) : Nat :=
  ((filteredArticles st).length + (itemsPerPage - 1)) / itemsPerPage

/-- The derived `startIndex = (currentPage - 1) * itemsPerPage`. -/
def startIndex (st : CatalogState) : Nat :=
  (st.currentPage - 1) * itemsPerPage

/-- The derived `paginatedArticles = filteredArticles.slice(startIndex, startIndex + itemsPerPage)`. -/
def paginatedArticles (st : CatalogState) : List Article :=
  ((filteredArticles st).drop (startIndex st)).take itemsPerPage

/-- Typing a new search string.  The `useEffect` on `[searchQuery,
selectedCategory]` resets the page to 1 whenever the value actually
changes (React bails out on an identical value, leaving the state
untouched). -/
def setSearch (st : CatalogState) (q : String) : CatalogState :=
  if q == st.searchQuery then st
  else { st with searchQuery := q, currentPage := 1 }

/-- Selecting a category button, with the same page-reset effect. -/
def setCategory (st : CatalogState) (c : String) : CatalogState :=
  if c == st.selectedCategory then st
  else { st with selectedCategory := c, currentPage := 1 }

/-- The Previous button: `setCurrentPage(prev => Math.max(prev - 1, 1))`. -/
def prevPage (st : CatalogState) : CatalogState :=
  { st with currentPage := max (st.currentPage - 1) 1 }

/-- The Next button: `setCurrentPage(prev => Math.min(prev + 1, totalFilteredPages))`. -/
def nextPage (st : CatalogState) : CatalogState :=
  { st with currentPage := min (st.currentPage + 1) (totalFilteredPages st) }

/-- A direct page-number button: `setCurrentPage(pageNum)`. -/
def selectPage (st : CatalogState) (n : Nat) : CatalogState :=
  { st with currentPage := n }

/-- Outcome of the one-shot remote fetch: a well-formed success payload,
a non-success HTTP status, or a thrown error (network failure or a
malformed body). -/
inductive FetchResult where
  | ok (pages : List SeoPage)
  | httpError
  | networkError

/-- The `fetchPSEOPages` callback.  On `response.ok` the payload is
converted and stored; on a non-success status or a caught error nothing
is stored; in every case `finally` clears the loading flag.  `pick`
supplies the per-record random image draw and `fmtDate` the locale date
rendering. -/
def applyFetch (pick : Nat → Nat) (fmtDate : String → String)
    (st : CatalogState) : FetchResult → CatalogState
  | .ok pages =>
    { st with
        pseoPages := (pages.enum.map (fun pi => convertPSEOToArticle (pick pi.1) fmtDate pi.2)),
        loading := false }
  | .httpError => { st with loading := false }
  | .networkError => { st with loading := false }

/-- The states of `InsightsPage` reachable through its UI.  While
`loading` is true the component renders only the spinner, so the search
box, category buttons and pagination controls can fire only afterwards;
the fetch callback itself resolves exactly once, out of the loading
state.  The pagination block is rendered only when `totalFilteredPages >
1`; its numbered buttons carry `pageNum = i + 1` for `i <
min 5 totalFilteredPages`, and the trailing last-page button appears
only when `totalFilteredPages > 5`. -/
inductive Reachable : CatalogState → Prop
  | init : Reachable initCatalogState
  | fetched (st : CatalogState) (pick : Nat → Nat) (fmtDate : String → String)
      (r : FetchResult) : Reachable st → st.loading = true →
      Reachable (applyFetch pick fmtDate st r)
  | search (st : CatalogState) (q : String) : Reachable st → st.loading = false →
      Reachable (setSearch st q)
  | category (st : CatalogState) (c : String) : Reachable st → st.loading = false →
      Reachable (setCategory st c)
  | prev (st : CatalogState) : Reachable st → st.loading = false →
      1 < totalFilteredPages st → Reachable (prevPage st)
  | next (st : CatalogState) : Reachable st → st.loading = false →
      1 < totalFilteredPages st → Reachable (nextPage st)
  | select (st : CatalogState) (i : Nat) : Reachable st → st.loading = false →
      1 < totalFilteredPages st → i < min 5 (totalFilteredPages st) →
      Reachable (selectPage st (i + 1))
  | selectLast (st : CatalogState) : Reachable st → st.loading = false →
      1 < totalFilteredPages st → 5 < totalFilteredPages st →
      Reachable (selectPage st (totalFilteredPages st))

/-! ## List helper lemmas -/

theorem find_decomp {α : Type} (p : α → Bool) :
    ∀ (l : List α) (x : α), l.find? p = some x →
      ∃ l₁ l₂, l = l₁ ++ x :: l₂ ∧ (∀ y ∈ l₁, p y = false) ∧ p x = true := by
  intro l
  induction l with
  | nil => intro x h; simp [List.find?] at h
  | cons a t ih =>
    intro x h
    rw [List.find?_cons] at h
    by_cases hpa : p a
    · simp [hpa] at h
      exact ⟨[], t, by simp [h], by simp, h ▸ hpa⟩
    · simp [hpa] at h
      obtain ⟨l₁, l₂, hdec, hall, hx⟩ := ih x h
      refine ⟨a :: l₁, l₂, by simp [hdec], ?_, hx⟩
      intro y hy
      rcases List.mem_cons.mp hy with hy | hy
      · simpa [hy] using hpa
      · exact hall y hy

theorem find_of_decomp {α : Type} (p : α → Bool) (l₁ l₂ : List α) (x : α)
    (h₁ : ∀ y ∈ l₁, p y = false) (hx : p x = true) :
    (l₁ ++ x :: l₂).find? p = some x := by
  induction l₁ with
  | nil => simp [List.find?_cons, hx]
  | cons a t ih =>
    have ha : p a = false := h₁ a (by simp)
    simp only [List.cons_append, List.find?_cons, ha]
    exact ih (fun y hy => h₁ y (by simp [hy]))

theorem findIdx_of_decomp {α : Type} (p : α → Bool) (l₁ l₂ : List α) (x : α)
    (h₁ : ∀ y ∈ l₁, p y = false) (hx : p x = true) :
    (l₁ ++ x :: l₂).findIdx p = l₁.length := by
  induction l₁ with
  | nil => simp [List.findIdx_cons, hx]
  | cons a t ih =>
    have ha : p a = false := h₁ a (by simp)
    simp only [List.cons_append, List.findIdx_cons, ha, cond_false, List.length_cons]
    rw [ih (fun y hy => h₁ y (by simp [hy]))]

theorem insertIdx_append_cons {α : Type} (l₁ l₂ : List α) (y : α) :
    (l₁ ++ l₂).insertIdx l₁.length y = l₁ ++ y :: l₂ := by
  induction l₁ with
  | nil => simp
  | cons a t ih => simpa [List.insertIdx_succ_cons] using ih

theorem filter_decomp_drop {α : Type} (p : α → Bool) (l₁ l₂ : List α) (x : α)
    (h₁ : ∀ y ∈ l₁, p y = false) (hx : p x = true) :
    (l₁ ++ x :: l₂).filter (fun a => !(p a)) = l₁ ++ l₂.filter (fun a => !(p a)) := by
  have hkeep : ∀ y ∈ l₁, (!(p y)) = true := fun y hy => by simp [h₁ y hy]
  simp [List.filter_append, List.filter_cons, hx, List.filter_eq_self.mpr hkeep]

/-! ## Cart structure lemmas -/

theorem filter_id_decomp (k : String) (l₁ l₂ : List Product) (x : Product)
    (h₁ : ∀ y ∈ l₁, (y.id == k) = false) (hx : (x.id == k) = true) :
    (l₁ ++ x :: l₂).filter (fun item => !(item.id == k)) =
      l₁ ++ l₂.filter (fun item => !(item.id == k)) :=
  filter_decomp_drop (fun it => it.id == k) l₁ l₂ x h₁ hx

theorem nodupIds_decomp (l₁ l₂ : List Product) (x : Product)
    (h : NodupIds (l₁ ++ x :: l₂)) :
    (∀ y ∈ l₁, y.id ≠ x.id) ∧ (∀ y ∈ l₂, y.id ≠ x.id) ∧ NodupIds (l₁ ++ l₂) := by
  unfold NodupIds at *
  rw [List.map_append, List.map_cons, List.nodup_append] at h
  obtain ⟨h1, h2, hdisj⟩ := h
  rw [List.nodup_cons] at h2
  refine ⟨?_, ?_, ?_⟩
  · intro y hy heq
    exact hdisj (List.mem_map_of_mem Product.id hy) (by simp [heq])
  · intro y hy heq
    exact h2.1 (heq ▸ List.mem_map_of_mem Product.id hy)
  · rw [List.map_append, List.nodup_append]
    exact ⟨h1, h2.2, fun a ha hb => hdisj ha (List.mem_cons_of_mem _ hb)⟩

theorem toggle_inc_eq (s : CartState) (id : String) (l₁ l₂ : List Product) (x : Product)
    (hdec : s.cartItems = l₁ ++ x :: l₂)
    (h₁ : ∀ y ∈ l₁, (y.id == id) = false) (hx : (x.id == id) = true) :
    toggleCartItemQuanitity s id .inc =
      { s with
          cartItems := l₁ ++ { x with quantity := x.quantity + 1 } ::
            l₂.filter (fun it => !(it.id == id)),
          totalPrice := s.totalPrice + x.price,
          totalQuantities := s.totalQuantities + 1 } := by
  unfold toggleCartItemQuanitity
  rw [hdec, find_of_decomp _ _ _ _ h₁ hx]
  simp only
  rw [findIdx_of_decomp _ _ _ _ h₁ hx,
    filter_id_decomp id _ _ _ h₁ hx,
    insertIdx_append_cons]

theorem toggle_dec_eq (s : CartState) (id : String) (l₁ l₂ : List Product) (x : Product)
    (hdec : s.cartItems = l₁ ++ x :: l₂)
    (h₁ : ∀ y ∈ l₁, (y.id == id) = false) (hx : (x.id == id) = true)
    (hq : x.quantity > 1) :
    toggleCartItemQuanitity s id .dec =
      { s with
          cartItems := l₁ ++ { x with quantity := x.quantity - 1 } ::
            l₂.filter (fun it => !(it.id == id)),
          totalPrice := s.totalPrice - x.price,
          totalQuantities := s.totalQuantities - 1 } := by
  unfold toggleCartItemQuanitity
  rw [hdec, find_of_decomp _ _ _ _ h₁ hx]
  simp only [hq, if_true]
  rw [findIdx_of_decomp _ _ _ _ h₁ hx,
    filter_id_decomp id _ _ _ h₁ hx,
    insertIdx_append_cons]

theorem toggle_dec_noop (s : CartState) (id : String) (x : Product)
    (hfind : s.cartItems.find? (fun it => it.id == id) = some x)
    (hq : ¬ x.quantity > 1) :
    toggleCartItemQuanitity s id .dec = s := by
  unfold toggleCartItemQuanitity
  rw [hfind]
  simp [hq]

theorem toggle_not_found (s : CartState) (id : String) (v : ToggleValue)
    (hfind : s.cartItems.find? (fun it => it.id == id) = none) :
    toggleCartItemQuanitity s id v = s := by
  unfold toggleCartItemQuanitity
  rw [hfind]

theorem onRemove_eq (s : CartState) (p : Product) (l₁ l₂ : List Product) (x : Product)
    (hdec : s.cartItems = l₁ ++ x :: l₂)
    (h₁ : ∀ y ∈ l₁, (y.id == p.id) = false) (hx : (x.id == p.id) = true) :
    onRemove s p =
      { s with
          cartItems := l₁ ++ l₂.filter (fun it => !(it.id == p.id)),
          totalPrice := s.totalPrice - x.price * x.quantity,
          totalQuantities := s.totalQuantities - x.quantity } := by
  unfold onRemove
  rw [hdec, find_of_decomp _ _ _ _ h₁ hx]
  simp only
  rw [filter_id_decomp p.id _ _ _ h₁ hx]

theorem onRemove_not_found (s : CartState) (p : Product)
    (hfind : s.cartItems.find? (fun it => it.id == p.id) = none) :
    onRemove s p = s := by
  unfold onRemove
  rw [hfind]

theorem onAdd_merge_eq (s : CartState) (p : Product) (q : Int)
    (l₁ l₂ : List Product) (x : Product)
    (hdec : s.cartItems = l₁ ++ x :: l₂)
    (h₁ : ∀ y ∈ l₁, (y.id == uniqueIdOf p) = false)
    (hx : (x.id == uniqueIdOf p) = true)
    (h₂ : ∀ y ∈ l₂, (y.id == uniqueIdOf p) = false) :
    onAdd s p q =
      ({ s with
           cartItems := l₁ ++ { x with quantity := x.quantity + q } :: l₂,
           totalPrice := s.totalPrice + p.price * q,
           totalQuantities := s.totalQuantities + q }, p) := by
  simp only [onAdd]
  rw [hdec, find_of_decomp _ _ _ _ h₁ hx]
  simp only [List.map_append, List.map_cons]
  have h1id : ∀ y ∈ l₁,
      (if uniqueIdOf p == y.id then { y with quantity := y.quantity + q } else y) = y := by
    intro y hy
    have : ¬ (uniqueIdOf p == y.id) = true := by
      intro hc
      rw [beq_iff_eq] at hc
      have hne := h₁ y hy
      rw [beq_eq_false_iff_ne] at hne
      exact hne hc.symm
    simp [this]
  have h2id : ∀ y ∈ l₂,
      (if uniqueIdOf p == y.id then { y with quantity := y.quantity + q } else y) = y := by
    intro y hy
    have : ¬ (uniqueIdOf p == y.id) = true := by
      intro hc
      rw [beq_iff_eq] at hc
      have hne := h₂ y hy
      rw [beq_eq_false_iff_ne] at hne
      exact hne hc.symm
    simp [this]
  have hxid : (uniqueIdOf p == x.id) = true := by
    rw [beq_iff_eq] at hx ⊢
    exact hx.symm
  rw [List.map_congr_left h1id, List.map_congr_left h2id]
  simp [hxid]

theorem onAdd_new_eq (s : CartState) (p : Product) (q : Int)
    (h : ∀ it ∈ s.cartItems, (it.id == uniqueIdOf p) = false) :
    onAdd s p q =
      ({ s with
           cartItems := s.cartItems ++ [{ p with quantity := q, id := uniqueIdOf p }],
           totalPrice := s.totalPrice + p.price * q,
           totalQuantities := s.totalQuantities + q },
       { p with quantity := q, id := uniqueIdOf p }) := by
  simp only [onAdd]
  have hfind : s.cartItems.find? (fun item => item.id == uniqueIdOf p) = none :=
    List.find?_eq_none.mpr (fun it hit => by simp [h it hit])
  rw [hfind]

/-! ## Aggregate sum lemmas -/

theorem sumQuantities_append (l₁ l₂ : List Product) :
    sumQuantities (l₁ ++ l₂) = sumQuantities l₁ + sumQuantities l₂ := by
  simp [sumQuantities]

theorem sumQuantities_cons (a : Product) (l : List Product) :
    sumQuantities (a :: l) = a.quantity + sumQuantities l := by
  simp [sumQuantities]

theorem sumPrices_append (l₁ l₂ : List Product) :
    sumPrices (l₁ ++ l₂) = sumPrices l₁ + sumPrices l₂ := by
  simp [sumPrices]

theorem sumPrices_cons (a : Product) (l : List Product) :
    sumPrices (a :: l) = a.price * a.quantity + sumPrices l := by
  simp [sumPrices]

theorem qtyKey_append (l₁ l₂ : List Product) (k : String) :
    qtyKey (l₁ ++ l₂) k = qtyKey l₁ k + qtyKey l₂ k := by
  simp [qtyKey, List.filter_append]

theorem qtyKey_cons (a : Product) (l : List Product) (k : String) :
    qtyKey (a :: l) k = (if a.id = k then a.quantity else 0) + qtyKey l k := by
  by_cases h : a.id = k <;> simp [qtyKey, List.filter_cons, h]

/-- With pairwise-distinct ids, a successful find decomposes the list
into an unmatched left part, the found item, and an unmatched right part. -/
theorem find_nodup_decomp (l : List Product) (k : String) (x : Product)
    (hfind : l.find? (fun item => item.id == k) = some x) (hnd : NodupIds l) :
    ∃ l₁ l₂, l = l₁ ++ x :: l₂ ∧ (∀ y ∈ l₁, (y.id == k) = false) ∧
      (∀ y ∈ l₂, (y.id == k) = false) ∧ x.id = k := by
  obtain ⟨l₁, l₂, hdec, h₁, hx⟩ := find_decomp _ l x hfind
  rw [beq_iff_eq] at hx
  have hd := nodupIds_decomp l₁ l₂ x (hdec ▸ hnd)
  refine ⟨l₁, l₂, hdec, h₁, ?_, hx⟩
  intro y hy
  rw [beq_eq_false_iff_ne, hx.symm]
  exact hd.2.1 y hy

/-- Totals after `onAdd` grow by `quantity` and by `price × quantity`,
regardless of which branch was taken. -/
theorem onAdd_totals (s : CartState) (p : Product) (q : Int) :
    ((onAdd s p q).1).totalQuantities = s.totalQuantities + q ∧
      ((onAdd s p q).1).totalPrice = s.totalPrice + p.price * q := by
  simp only [onAdd]
  cases hfind : s.cartItems.find? (fun item => item.id == uniqueIdOf p) <;> simp [hfind]

/-- Preservation of the cart representation invariants by one operation:
ids stay pairwise distinct, `totalQuantities` stays equal to
Σ item.quantity, and `totalPrice` stays equal to Σ item.price ×
item.quantity provided the operation is price consistent. -/
theorem applyOp_inv (s : CartState) (op : CartOp) (hnd : NodupIds s.cartItems) :
    NodupIds (applyOp s op).cartItems
    ∧ (s.totalQuantities = sumQuantities s.cartItems →
        (applyOp s op).totalQuantities = sumQuantities (applyOp s op).cartItems)
    ∧ (priceConsistentOp s op → s.totalPrice = sumPrices s.cartItems →
        (applyOp s op).totalPrice = sumPrices (applyOp s op).cartItems) := by
  cases op with
  | add p q =>
    simp only [applyOp]
    cases hfind : s.cartItems.find? (fun item => item.id == uniqueIdOf p) with
    | none =>
      have hids : ∀ it ∈ s.cartItems, (it.id == uniqueIdOf p) = false := by
        intro it hit
        have := List.find?_eq_none.mp hfind it hit
        simpa using this
      rw [onAdd_new_eq s p q hids]
      dsimp only
      refine ⟨?_, ?_, ?_⟩
      · unfold NodupIds at *
        simp only [List.map_append, List.map_cons, List.map_nil]
        rw [List.nodup_append]
        refine ⟨hnd, by simp, ?_⟩
        intro a ha hb
        simp only [List.mem_singleton] at hb
        obtain ⟨it, hit, hita⟩ := List.mem_map.mp ha
        have := hids it hit
        rw [beq_eq_false_iff_ne] at this
        exact this (by rw [hita, hb])
      · intro hq
        rw [sumQuantities_append, sumQuantities_cons, hq]
        simp [sumQuantities]
      · intro _ hp
        rw [sumPrices_append, sumPrices_cons, hp]
        simp [sumPrices]
    | some x =>
      obtain ⟨l₁, l₂, hdec, h₁, h₂, hx⟩ := find_nodup_decomp _ _ _ hfind hnd
      have hxb : (x.id == uniqueIdOf p) = true := by rw [beq_iff_eq]; exact hx
      rw [onAdd_merge_eq s p q l₁ l₂ x hdec h₁ hxb h₂]
      have hxmem : x ∈ s.cartItems := by rw [hdec]; simp
      dsimp only
      refine ⟨?_, ?_, ?_⟩
      · unfold NodupIds at *
        rw [hdec] at hnd
        simpa using hnd
      · intro hq
        rw [hdec, sumQuantities_append, sumQuantities_cons] at hq
        rw [sumQuantities_append, sumQuantities_cons]
        dsimp only
        omega
      · intro hpc hp
        have hxp : x.price = p.price := hpc x hxmem hx
        rw [hdec, sumPrices_append, sumPrices_cons] at hp
        rw [sumPrices_append, sumPrices_cons]
        dsimp only
        rw [hp, hxp]
        ring
  | remove p =>
    simp only [applyOp]
    cases hfind : s.cartItems.find? (fun item => item.id == p.id) with
    | none =>
      rw [onRemove_not_found s p hfind]
      exact ⟨hnd, fun hq => hq, fun _ hp => hp⟩
    | some x =>
      obtain ⟨l₁, l₂, hdec, h₁, h₂, hx⟩ := find_nodup_decomp _ _ _ hfind hnd
      have hfilter : l₂.filter (fun item => !(item.id == p.id)) = l₂ :=
        List.filter_eq_self.mpr (fun y hy => by simp [h₂ y hy])
      rw [onRemove_eq s p l₁ l₂ x hdec h₁ (by rw [beq_iff_eq]; exact hx), hfilter]
      have hd := nodupIds_decomp l₁ l₂ x (hdec ▸ hnd)
      dsimp only
      refine ⟨hd.2.2, ?_, ?_⟩
      · intro hq
        rw [hdec, sumQuantities_append, sumQuantities_cons] at hq
        rw [sumQuantities_append]
        omega
      · intro _ hp
        rw [hdec, sumPrices_append, sumPrices_cons] at hp
        rw [sumPrices_append]
        rw [hp]
        ring
  | toggle id v =>
    simp only [applyOp]
    cases hfind : s.cartItems.find? (fun item => item.id == id) with
    | none =>
      rw [toggle_not_found s id v hfind]
      exact ⟨hnd, fun hq => hq, fun _ hp => hp⟩
    | some x =>
      obtain ⟨l₁, l₂, hdec, h₁, h₂, hx⟩ := find_nodup_decomp _ _ _ hfind hnd
      have hxb : (x.id == id) = true := by rw [beq_iff_eq]; exact hx
      have hfilter : l₂.filter (fun item => !(item.id == id)) = l₂ :=
        List.filter_eq_self.mpr (fun y hy => by simp [h₂ y hy])
      have hndpres : NodupIds (l₁ ++ x :: l₂) := hdec ▸ hnd
      cases v with
      | inc =>
        rw [toggle_inc_eq s id l₁ l₂ x hdec h₁ hxb, hfilter]
        dsimp only
        refine ⟨?_, ?_, ?_⟩
        · unfold NodupIds at *
          simpa using hndpres
        · intro hq
          rw [hdec, sumQuantities_append, sumQuantities_cons] at hq
          rw [sumQuantities_append, sumQuantities_cons]
          dsimp only
          omega
        · intro _ hp
          rw [hdec, sumPrices_append, sumPrices_cons] at hp
          rw [sumPrices_append, sumPrices_cons]
          dsimp only
          rw [hp]
          ring
      | dec =>
        by_cases hq1 : x.quantity > 1
        · rw [toggle_dec_eq s id l₁ l₂ x hdec h₁ hxb hq1, hfilter]
          dsimp only
          refine ⟨?_, ?_, ?_⟩
          · unfold NodupIds at *
            simpa using hndpres
          · intro hq
            rw [hdec, sumQuantities_append, sumQuantities_cons] at hq
            rw [sumQuantities_append, sumQuantities_cons]
            dsimp only
            omega
          · intro _ hp
            rw [hdec, sumPrices_append, sumPrices_cons] at hp
            rw [sumPrices_append, sumPrices_cons]
            dsimp only
            rw [hp]
            ring
        · rw [toggle_dec_noop s id x hfind hq1]
          exact ⟨hnd, fun hq => hq, fun _ hp => hp⟩

/-! ## Sequence-level cart lemmas -/

theorem applyOps_inv (ops : List CartOp) : ∀ (s : CartState), NodupIds s.cartItems →
    NodupIds (applyOps s ops).cartItems
    ∧ (s.totalQuantities = sumQuantities s.cartItems →
        (applyOps s ops).totalQuantities = sumQuantities (applyOps s ops).cartItems)
    ∧ (priceConsistentOps s ops → s.totalPrice = sumPrices s.cartItems →
        (applyOps s ops).totalPrice = sumPrices (applyOps s ops).cartItems) := by
  induction ops with
  | nil =>
    intro s hnd
    exact ⟨hnd, fun hq => hq, fun _ hp => hp⟩
  | cons op rest ih =>
    intro s hnd
    have h1 := applyOp_inv s op hnd
    have h2 := ih (applyOp s op) h1.1
    simp only [applyOps, List.foldl_cons] at h2 ⊢
    exact ⟨h2.1, fun hq => h2.2.1 (h1.2.1 hq),
      fun hpc hp => h2.2.2 hpc.2 (h1.2.2 hpc.1 hp)⟩

theorem applyOps_addTotals (ops : List CartOp) : ∀ (s : CartState), addOnly ops →
    (applyOps s ops).totalQuantities = s.totalQuantities + sumAddQty ops
    ∧ (applyOps s ops).totalPrice = s.totalPrice + sumAddPrice ops := by
  induction ops with
  | nil =>
    intro s _
    simp [applyOps, sumAddQty, sumAddPrice]
  | cons op rest ih =>
    intro s ha
    cases op with
    | add p q =>
      have hstep := onAdd_totals s p q
      have h := ih ((onAdd s p q).1) ha
      simp only [applyOps, List.foldl_cons, applyOp] at h ⊢
      rw [h.1, h.2, hstep.1, hstep.2]
      constructor <;> [skip; skip] <;> simp [sumAddQty, sumAddPrice] <;> ring
    | remove p => exact absurd ha (by simp [addOnly])
    | toggle id v => exact absurd ha (by simp [addOnly])

theorem onAdd_qtyKey (s : CartState) (p : Product) (q : Int)
    (hnd : NodupIds s.cartItems) (k : String) :
    qtyKey ((onAdd s p q).1).cartItems k =
      qtyKey s.cartItems k + (if uniqueIdOf p = k then q else 0) := by
  cases hfind : s.cartItems.find? (fun item => item.id == uniqueIdOf p) with
  | none =>
    have hids : ∀ it ∈ s.cartItems, (it.id == uniqueIdOf p) = false := by
      intro it hit
      have := List.find?_eq_none.mp hfind it hit
      simpa using this
    rw [onAdd_new_eq s p q hids]
    dsimp only
    rw [qtyKey_append]
    have : qtyKey [{ p with quantity := q, id := uniqueIdOf p }] k =
        (if uniqueIdOf p = k then q else 0) := by
      by_cases huk : uniqueIdOf p = k <;> simp [qtyKey, List.filter_cons, huk]
    rw [this]
  | some x =>
    obtain ⟨l₁, l₂, hdec, h₁, h₂, hx⟩ := find_nodup_decomp _ _ _ hfind hnd
    have hxb : (x.id == uniqueIdOf p) = true := by rw [beq_iff_eq]; exact hx
    rw [onAdd_merge_eq s p q l₁ l₂ x hdec h₁ hxb h₂]
    dsimp only
    rw [hdec, qtyKey_append, qtyKey_append, qtyKey_cons, qtyKey_cons]
    dsimp only
    rw [hx]
    by_cases huk : uniqueIdOf p = k
    · rw [if_pos huk, if_pos huk, if_pos huk]
      ring
    · rw [if_neg huk, if_neg huk, if_neg huk]
      ring

theorem applyOps_qtyKey (ops : List CartOp) : ∀ (s : CartState), NodupIds s.cartItems →
    addOnly ops → ∀ k,
    qtyKey (applyOps s ops).cartItems k = qtyKey s.cartItems k + sumAddQtyKey k ops := by
  induction ops with
  | nil =>
    intro s _ _ k
    simp [applyOps, sumAddQtyKey]
  | cons op rest ih =>
    intro s hnd ha k
    cases op with
    | add p q =>
      have hnd1 := (applyOp_inv s (.add p q) hnd).1
      have h := ih (applyOp s (.add p q)) hnd1 ha k
      simp only [applyOps, List.foldl_cons] at h ⊢
      rw [h]
      simp only [applyOp]
      rw [onAdd_qtyKey s p q hnd k]
      simp only [sumAddQtyKey]
      ring
    | remove p => exact absurd ha (by simp [addOnly])
    | toggle id v => exact absurd ha (by simp [addOnly])

theorem countKey_le_one (l : List Product) (hnd : NodupIds l) (k : String) :
    countKey l k ≤ 1 := by
  induction l with
  | nil => simp [countKey]
  | cons a t ih =>
    unfold NodupIds at hnd
    rw [List.map_cons, List.nodup_cons] at hnd
    by_cases hak : a.id = k
    · have hnone : ∀ y ∈ t, ¬ ((y.id == k) = true) := by
        intro y hy hc
        rw [beq_iff_eq] at hc
        refine hnd.1 ?_
        have hmem := List.mem_map_of_mem Product.id hy
        rw [hc, ← hak] at hmem
        exact hmem
      have : t.filter (fun it => it.id == k) = [] := by
        rw [List.filter_eq_nil_iff]
        exact hnone
      simp [countKey, List.filter_cons, hak, this]
    · have := ih hnd.2
      simpa [countKey, List.filter_cons, hak] using this

/-! ## Quantity positivity preservation -/

theorem applyOp_qty_ge_one (s : CartState) (op : CartOp)
    (hq : ∀ it ∈ s.cartItems, 1 ≤ it.quantity) (hop : opAddQtyPos op) :
    ∀ it ∈ (applyOp s op).cartItems, 1 ≤ it.quantity := by
  cases op with
  | add p q =>
    have hq1 : 1 ≤ q := hop
    simp only [applyOp]
    cases hfind : s.cartItems.find? (fun item => item.id == uniqueIdOf p) with
    | none =>
      have hids : ∀ it ∈ s.cartItems, (it.id == uniqueIdOf p) = false := by
        intro it hit
        have := List.find?_eq_none.mp hfind it hit
        simpa using this
      rw [onAdd_new_eq s p q hids]
      dsimp only
      intro it hit
      rcases List.mem_append.mp hit with hmem | hmem
      · exact hq it hmem
      · simp only [List.mem_singleton] at hmem
        subst hmem
        exact hq1
    | some x =>
      simp only [onAdd]
      rw [hfind]
      dsimp only
      intro it hit
      obtain ⟨y, hy, hyit⟩ := List.mem_map.mp hit
      by_cases hcond : (uniqueIdOf p == y.id) = true
      · rw [if_pos hcond] at hyit
        have := hq y hy
        subst hyit
        dsimp only
        omega
      · rw [if_neg hcond] at hyit
        subst hyit
        exact hq y hy
  | remove p =>
    simp only [applyOp]
    cases hfind : s.cartItems.find? (fun item => item.id == p.id) with
    | none =>
      rw [onRemove_not_found s p hfind]
      exact hq
    | some x =>
      obtain ⟨l₁, l₂, hdec, h₁, hx⟩ := find_decomp _ _ _ hfind
      rw [onRemove_eq s p l₁ l₂ x hdec h₁ hx]
      dsimp only
      intro it hit
      rcases List.mem_append.mp hit with hmem | hmem
      · exact hq it (by rw [hdec]; simp [hmem])
      · exact hq it (by rw [hdec]; simp [List.mem_of_mem_filter hmem])
  | toggle id v =>
    simp only [applyOp]
    cases hfind : s.cartItems.find? (fun item => item.id == id) with
    | none =>
      rw [toggle_not_found s id v hfind]
      exact hq
    | some x =>
      obtain ⟨l₁, l₂, hdec, h₁, hx⟩ := find_decomp _ _ _ hfind
      have hxq : 1 ≤ x.quantity := hq x (List.mem_of_find?_eq_some hfind)
      cases v with
      | inc =>
        rw [toggle_inc_eq s id l₁ l₂ x hdec h₁ hx]
        dsimp only
        intro it hit
        rcases List.mem_append.mp hit with hmem | hmem
        · exact hq it (by rw [hdec]; simp [hmem])
        · rcases List.mem_cons.mp hmem with hmem | hmem
          · subst hmem
            dsimp only
            omega
          · exact hq it (by rw [hdec]; simp [List.mem_of_mem_filter hmem])
      | dec =>
        by_cases hq1 : x.quantity > 1
        · rw [toggle_dec_eq s id l₁ l₂ x hdec h₁ hx hq1]
          dsimp only
          intro it hit
          rcases List.mem_append.mp hit with hmem | hmem
          · exact hq it (by rw [hdec]; simp [hmem])
          · rcases List.mem_cons.mp hmem with hmem | hmem
            · subst hmem
              dsimp only
              omega
            · exact hq it (by rw [hdec]; simp [List.mem_of_mem_filter hmem])
        · rw [toggle_dec_noop s id x hfind hq1]
          exact hq

/-! ## Claim theorems: cart -/

/-- Claim C1 (amended): after any sequence of cart operations from the
empty cart in which no operation targets a nonexistent line item,
`totalQuantities` equals Σ item.quantity over the line items;
`totalPrice` equals Σ item.price × item.quantity provided every merging
add passes the price stored on the item (without that proviso the equation
can fail, see the counterexample); and for any sequence consisting only
of adds the totals equal the sum of the quantities added and the sum of
price × quantity over the adds. -/
theorem C1_cart_totals_invariant (ops : List CartOp)
    (_hv : validOps initialCartState ops) :
    (applyOps initialCartState ops).totalQuantities =
        sumQuantities (applyOps initialCartState ops).cartItems
    ∧ (priceConsistentOps initialCartState ops →
        (applyOps initialCartState ops).totalPrice =
          sumPrices (applyOps initialCartState ops).cartItems)
    ∧ (addOnly ops →
        (applyOps initialCartState ops).totalQuantities = sumAddQty ops
        ∧ (applyOps initialCartState ops).totalPrice = sumAddPrice ops) := by
  have hnd : NodupIds initialCartState.cartItems := by
    simp [initialCartState, NodupIds]
  have h := applyOps_inv ops initialCartState hnd
  refine ⟨h.2.1 (by simp [initialCartState, sumQuantities]),
    fun hpc => h.2.2 hpc (by simp [initialCartState, sumPrices]),
    fun ha => ?_⟩
  have ht := applyOps_addTotals ops initialCartState ha
  simpa [initialCartState] using ht

/-- Witness for C1: the amended invariant instantiated on the valid
two-add sequence of the worked example in the spec. -/
theorem C1_cart_totals_invariant_witness :
    (applyOps initialCartState [CartOp.add exProd 2, CartOp.add exProd 3]).totalQuantities =
        sumQuantities (applyOps initialCartState [CartOp.add exProd 2, CartOp.add exProd 3]).cartItems
    ∧ (priceConsistentOps initialCartState [CartOp.add exProd 2, CartOp.add exProd 3] →
        (applyOps initialCartState [CartOp.add exProd 2, CartOp.add exProd 3]).totalPrice =
          sumPrices (applyOps initialCartState [CartOp.add exProd 2, CartOp.add exProd 3]).cartItems)
    ∧ (addOnly [CartOp.add exProd 2, CartOp.add exProd 3] →
        (applyOps initialCartState [CartOp.add exProd 2, CartOp.add exProd 3]).totalQuantities =
            sumAddQty [CartOp.add exProd 2, CartOp.add exProd 3]
        ∧ (applyOps initialCartState [CartOp.add exProd 2, CartOp.add exProd 3]).totalPrice =
            sumAddPrice [CartOp.add exProd 2, CartOp.add exProd 3]) :=
  C1_cart_totals_invariant [CartOp.add exProd 2, CartOp.add exProd 3]
    (by simp [validOps, validOp])

/-- Counterexample to C1 as stated: adding the same composite key twice
with prices 100 and then 50 (a valid, add-only sequence) leaves
`totalPrice = 150` while Σ item.price × item.quantity = 200. -/
theorem C1_price_drift_counterexample :
    validOps initialCartState [CartOp.add exProd 1, CartOp.add exProdCheap 1]
    ∧ (applyOps initialCartState [CartOp.add exProd 1, CartOp.add exProdCheap 1]).totalPrice ≠
        sumPrices (applyOps initialCartState [CartOp.add exProd 1, CartOp.add exProdCheap 1]).cartItems := by
  constructor
  · simp [validOps, validOp]
  · decide

/-- Claim C2: an add whose composite key already identifies a line item
never creates a second one — the item count is unchanged on such an add,
at most one line item ever carries a given key, over any add-only
sequence from the empty cart the item under a key carries exactly the
sum of the quantities added under that key — and the worked
example holds: add 2 then add 3 of `p1`/`500g` yields one item of
quantity 5 with totalPrice 500 and totalQuantities 5. -/
theorem C2_add_merges_existing_key :
    (∀ (s : CartState) (p : Product) (q : Int),
        (∃ it ∈ s.cartItems, it.id = uniqueIdOf p) →
        ((onAdd s p q).1).cartItems.length = s.cartItems.length)
    ∧ (∀ (ops : List CartOp) (k : String), addOnly ops →
        countKey ((applyOps initialCartState ops).cartItems) k ≤ 1
        ∧ qtyKey ((applyOps initialCartState ops).cartItems) k = sumAddQtyKey k ops)
    ∧ (applyOps initialCartState [CartOp.add exProd 2] =
        { cartItems := [{ id := "p1-500g", name := exProd.name, price := 100,
                          quantity := 2, weight := "500g", image := exProd.image }],
          totalPrice := 200, totalQuantities := 2, qty := 1 }
      ∧ applyOps initialCartState [CartOp.add exProd 2, CartOp.add exProd 3] =
        { cartItems := [{ id := "p1-500g", name := exProd.name, price := 100,
                          quantity := 5, weight := "500g", image := exProd.image }],
          totalPrice := 500, totalQuantities := 5, qty := 1 }) := by
  refine ⟨?_, ?_, by decide, by decide⟩
  · intro s p q h
    obtain ⟨it, hit, hid⟩ := h
    have hsome : (s.cartItems.find? (fun item => item.id == uniqueIdOf p)).isSome :=
      List.find?_isSome.mpr ⟨it, hit, by rw [beq_iff_eq]; exact hid⟩
    obtain ⟨x, hfind⟩ := Option.isSome_iff_exists.mp hsome
    simp only [onAdd]
    rw [hfind]
    simp
  · intro ops k ha
    have hnd : NodupIds initialCartState.cartItems := by
      simp [initialCartState, NodupIds]
    have hndf := (applyOps_inv ops initialCartState hnd).1
    refine ⟨countKey_le_one _ hndf k, ?_⟩
    have h := applyOps_qtyKey ops initialCartState hnd ha k
    rw [h]
    simp [initialCartState, qtyKey]

/-- Witness for C2: the merge keeps the item count at 1 on the example
state, and the per-key quantity sum instantiated on the example adds. -/
theorem C2_add_merges_existing_key_witness :
    ((onAdd (applyOps initialCartState [CartOp.add exProd 2]) exProd 3).1).cartItems.length =
        (applyOps initialCartState [CartOp.add exProd 2]).cartItems.length
    ∧ qtyKey ((applyOps initialCartState [CartOp.add exProd 2, CartOp.add exProd 3]).cartItems)
          "p1-500g" =
        sumAddQtyKey "p1-500g" [CartOp.add exProd 2, CartOp.add exProd 3] :=
  ⟨C2_add_merges_existing_key.1 (applyOps initialCartState [CartOp.add exProd 2]) exProd 3
      (by decide),
   (C2_add_merges_existing_key.2.1 [CartOp.add exProd 2, CartOp.add exProd 3] "p1-500g"
      (by simp [addOnly])).2⟩

/-- Claim C3: `onRemove` with a product whose id matches no line item,
and `toggleCartItemQuanitity` in either direction with an unknown id,
return the state completely unchanged. -/
theorem C3_unknown_id_silent_noop :
    (∀ (s : CartState) (p : Product), (∀ it ∈ s.cartItems, it.id ≠ p.id) →
        onRemove s p = s)
    ∧ (∀ (s : CartState) (id : String) (v : ToggleValue),
        (∀ it ∈ s.cartItems, it.id ≠ id) → toggleCartItemQuanitity s id v = s) := by
  constructor
  · intro s p h
    exact onRemove_not_found s p
      (List.find?_eq_none.mpr (fun it hit => by simp [h it hit]))
  · intro s id v h
    exact toggle_not_found s id v
      (List.find?_eq_none.mpr (fun it hit => by simp [h it hit]))

/-- Witness for C3: removing the never-stored raw id `p1` and toggling an
unknown id on a one-item cart both leave the state unchanged. -/
theorem C3_unknown_id_silent_noop_witness :
    onRemove (applyOps initialCartState [CartOp.add exProd 2]) exProd =
        applyOps initialCartState [CartOp.add exProd 2]
    ∧ toggleCartItemQuanitity (applyOps initialCartState [CartOp.add exProd 2]) "missing"
          ToggleValue.inc =
        applyOps initialCartState [CartOp.add exProd 2] :=
  ⟨C3_unknown_id_silent_noop.1 (applyOps initialCartState [CartOp.add exProd 2]) exProd
      (by decide),
   C3_unknown_id_silent_noop.2 (applyOps initialCartState [CartOp.add exProd 2]) "missing"
      ToggleValue.inc (by decide)⟩

/-- Claim C4: every cart operation (with adds of quantity ≥ 1) preserves
`quantity ≥ 1` for all line items, and decrementing a line item whose
quantity is already 1 leaves the entire state — items and both totals —
unchanged. -/
theorem C4_quantity_at_least_one :
    (∀ (s : CartState) (op : CartOp),
        (∀ it ∈ s.cartItems, 1 ≤ it.quantity) → opAddQtyPos op →
        ∀ it ∈ (applyOp s op).cartItems, 1 ≤ it.quantity)
    ∧ (∀ (s : CartState) (id : String) (x : Product),
        s.cartItems.find? (fun item => item.id == id) = some x →
        x.quantity = 1 → toggleCartItemQuanitity s id ToggleValue.dec = s) := by
  constructor
  · exact applyOp_qty_ge_one
  · intro s id x hfind hx1
    exact toggle_dec_noop s id x hfind (by omega)

/-- Witness for C4: incrementality on a concrete add, and a concrete
decrement of a quantity-1 item that changes nothing. -/
theorem C4_quantity_at_least_one_witness :
    (∀ it ∈ (applyOp initialCartState (CartOp.add exProd 2)).cartItems, 1 ≤ it.quantity)
    ∧ toggleCartItemQuanitity (applyOps initialCartState [CartOp.add exProd 1]) "p1-500g"
          ToggleValue.dec =
        applyOps initialCartState [CartOp.add exProd 1] :=
  ⟨C4_quantity_at_least_one.1 initialCartState (CartOp.add exProd 2)
      (by simp [initialCartState]) (by unfold opAddQtyPos; norm_num),
   C4_quantity_at_least_one.2 (applyOps initialCartState [CartOp.add exProd 1]) "p1-500g"
      { exProd with id := "p1-500g" } (by decide) (by decide)⟩

/-- Claim C5: the confirmation toast of `onAdd` interpolates the
session quantity-selector value `qty` — together with the product
name and weight — and not the `quantity` argument, so whenever the two
differ the number displayed is not the quantity that was added. -/
theorem C5_toast_reports_selector_qty (s : CartState) (p : Product) (q : Int) :
    onAddToastMessage s p q =
      toString s.qty ++ " " ++ p.name ++ " (" ++ p.weight ++ ") added to the cart."
    ∧ (∃ pre post, onAddToastMessage s p q = pre ++ p.name ++ post)
    ∧ (∃ pre post, onAddToastMessage s p q = pre ++ p.weight ++ post)
    ∧ displayedAddQty s p q = s.qty
    ∧ (s.qty ≠ q → displayedAddQty s p q ≠ q) := by
  refine ⟨rfl,
    ⟨toString s.qty ++ " ", " (" ++ p.weight ++ ") added to the cart.", ?_⟩,
    ⟨toString s.qty ++ " " ++ p.name ++ " (", ") added to the cart.", ?_⟩,
    rfl, fun h => h⟩
  · simp [onAddToastMessage, displayedAddQty, String.append_assoc]
  · simp [onAddToastMessage, displayedAddQty, String.append_assoc]

/-- Witness for C5: with the initial selector value 1 and an add of
quantity 2, the displayed number is not the quantity added. -/
theorem C5_toast_reports_selector_qty_witness :
    displayedAddQty initialCartState exProd 2 ≠ 2 :=
  (C5_toast_reports_selector_qty initialCartState exProd 2).2.2.2.2 (by decide)

/-- Claim C9: when the composite key is already present, `onAdd` rewrites
the cart by a per-item function that preserves name, price, weight,
image and id of every item and is the identity on every item whose id
differs from the composite key — only the quantity of the matched item can
change. -/
theorem C9_merge_add_frame (s : CartState) (p : Product) (q : Int)
    (h : ∃ it ∈ s.cartItems, it.id = uniqueIdOf p) :
    ∃ f : Product → Product,
      ((onAdd s p q).1).cartItems = s.cartItems.map f
      ∧ (∀ it : Product, (f it).name = it.name ∧ (f it).price = it.price
          ∧ (f it).weight = it.weight ∧ (f it).image = it.image ∧ (f it).id = it.id)
      ∧ (∀ it : Product, it.id ≠ uniqueIdOf p → f it = it) := by
  obtain ⟨w, hw, hwid⟩ := h
  have hsome : (s.cartItems.find? (fun item => item.id == uniqueIdOf p)).isSome :=
    List.find?_isSome.mpr ⟨w, hw, by rw [beq_iff_eq]; exact hwid⟩
  obtain ⟨x, hfind⟩ := Option.isSome_iff_exists.mp hsome
  refine ⟨fun cartProduct =>
    if uniqueIdOf p == cartProduct.id then
      { cartProduct with quantity := cartProduct.quantity + q }
    else cartProduct, ?_, ?_, ?_⟩
  · simp only [onAdd]
    rw [hfind]
  · intro it
    by_cases hc : (uniqueIdOf p == it.id) = true <;> simp [hc]
  · intro it hne
    have hcf : (uniqueIdOf p == it.id) = false := by
      rw [beq_eq_false_iff_ne]
      exact fun hc => hne hc.symm
    simp [hcf]

/-- Witness for C9: the frame property instantiated on the worked
example one-item cart. -/
theorem C9_merge_add_frame_witness :
    ∃ f : Product → Product,
      ((onAdd (applyOps initialCartState [CartOp.add exProd 2]) exProd 3).1).cartItems =
        (applyOps initialCartState [CartOp.add exProd 2]).cartItems.map f
      ∧ (∀ it : Product, (f it).name = it.name ∧ (f it).price = it.price
          ∧ (f it).weight = it.weight ∧ (f it).image = it.image ∧ (f it).id = it.id)
      ∧ (∀ it : Product, it.id ≠ uniqueIdOf exProd → f it = it) :=
  C9_merge_add_frame (applyOps initialCartState [CartOp.add exProd 2]) exProd 3 (by decide)

/-- Claim C10: when the composite key is not yet in the cart, `onAdd`
mutates the product of the caller in place — `id` becomes the composite
`id-weight` string and `quantity` the quantity argument — and a second
add of that same mutated object computes the doubled key
`id-weight-weight` and inserts a second, distinct line item instead of
merging. -/
theorem C10_add_mutates_caller_product :
    (∀ (s : CartState) (p : Product) (q : Int),
        (∀ it ∈ s.cartItems, it.id ≠ uniqueIdOf p) →
        (onAdd s p q).2 = { p with id := p.id ++ "-" ++ p.weight, quantity := q })
    ∧ (onAdd initialCartState exProd 2).2.id = "p1-500g"
    ∧ uniqueIdOf (onAdd initialCartState exProd 2).2 = "p1-500g-500g"
    ∧ ((onAdd (onAdd initialCartState exProd 2).1 (onAdd initialCartState exProd 2).2 3).1).cartItems.map
          Product.id = ["p1-500g", "p1-500g-500g"]
    ∧ ((onAdd (onAdd initialCartState exProd 2).1 (onAdd initialCartState exProd 2).2 3).1).cartItems.length =
        2 := by
  refine ⟨?_, by decide, by decide, by decide, by decide⟩
  intro s p q h
  have hb : ∀ it ∈ s.cartItems, (it.id == uniqueIdOf p) = false :=
    fun it hit => by simp [h it hit]
  rw [onAdd_new_eq s p q hb]
  rfl

/-- Witness for C10: the in-place mutation observed on the empty cart. -/
theorem C10_add_mutates_caller_product_witness :
    (onAdd initialCartState exProd 2).2 =
      { exProd with id := exProd.id ++ "-" ++ exProd.weight, quantity := 2 } :=
  C10_add_mutates_caller_product.1 initialCartState exProd 2 (by simp [initialCartState])

/-! ## Substring correctness -/

theorem startsWithL_iff : ∀ (n h : List Char),
    startsWithL n h = true ↔ ∃ rest, h = n ++ rest := by
  intro n
  induction n with
  | nil =>
    intro h
    simp [startsWithL]
  | cons a as ih =>
    intro h
    cases h with
    | nil => simp [startsWithL]
    | cons b bs =>
      simp only [startsWithL, Bool.and_eq_true, beq_iff_eq, List.cons_append]
      constructor
      · rintro ⟨hab, hs⟩
        obtain ⟨rest, hrest⟩ := (ih bs).mp hs
        exact ⟨rest, by rw [hab, hrest]⟩
      · rintro ⟨rest, hrest⟩
        rw [List.cons.injEq] at hrest
        obtain ⟨hba, hbs⟩ := hrest
        exact ⟨hba.symm, (ih bs).mpr ⟨rest, hbs⟩⟩

theorem containsL_iff : ∀ (n h : List Char),
    containsL n h = true ↔ ∃ pre post, h = pre ++ n ++ post := by
  intro n h
  induction h with
  | nil =>
    simp only [containsL, List.isEmpty_iff]
    constructor
    · intro hn
      exact ⟨[], [], by simp [hn]⟩
    · rintro ⟨pre, post, hpp⟩
      have h0 := hpp.symm
      rw [List.append_eq_nil] at h0
      have h1 := h0.1
      rw [List.append_eq_nil] at h1
      simp [h1.2]
  | cons b bs ih =>
    simp only [containsL, Bool.or_eq_true]
    constructor
    · rintro (hs | hc)
      · obtain ⟨rest, hrest⟩ := (startsWithL_iff n (b :: bs)).mp hs
        exact ⟨[], rest, by simp [hrest]⟩
      · obtain ⟨pre, post, hpp⟩ := ih.mp hc
        exact ⟨b :: pre, post, by simp [hpp]⟩
    · rintro ⟨pre, post, hpp⟩
      cases pre with
      | nil =>
        left
        exact (startsWithL_iff n (b :: bs)).mpr ⟨post, by simpa using hpp⟩
      | cons c pre =>
        right
        rw [List.cons_append, List.cons_append, List.cons.injEq] at hpp
        exact ih.mpr ⟨pre, post, hpp.2⟩

theorem strIncludes_iff (hay needle : String) :
    strIncludes hay needle = true ↔
      ∃ pre post : List Char, hay.data = pre ++ needle.data ++ post :=
  containsL_iff needle.data hay.data

theorem matchesSearch_iff (qs : String) (a : Article) :
    matchesSearch qs a = true ↔
      (ciContains a.title qs ∨ ciContains a.excerpt qs ∨ ∃ t ∈ a.tags, ciContains t qs) := by
  simp only [matchesSearch, Bool.or_eq_true, List.any_eq_true, strIncludes_iff, ciContains]
  rw [or_assoc]

theorem matchesCategory_iff (c : String) (a : Article) :
    matchesCategory c a = true ↔ (c = "All" ∨ a.category = c) := by
  simp [matchesCategory]

/-! ## Claim theorems: catalog -/

/-- Claim C6: the filtered view contains exactly the merged records whose
title, excerpt or some tag contains the search text case-insensitively
and whose category equals the selection (with `"All"` matching every
record), and changing the search text or the category resets the page
number to 1. -/
theorem C6_filtered_view_characterization :
    (∀ (st : CatalogState) (a : Article),
        a ∈ filteredArticles st ↔
          a ∈ allArticles st
          ∧ (ciContains a.title st.searchQuery ∨ ciContains a.excerpt st.searchQuery
              ∨ ∃ t ∈ a.tags, ciContains t st.searchQuery)
          ∧ (st.selectedCategory = "All" ∨ a.category = st.selectedCategory))
    ∧ (∀ (st : CatalogState) (q : String), q ≠ st.searchQuery →
        (setSearch st q).currentPage = 1)
    ∧ (∀ (st : CatalogState) (c : String), c ≠ st.selectedCategory →
        (setCategory st c).currentPage = 1) := by
  refine ⟨?_, ?_, ?_⟩
  · intro st a
    rw [filteredArticles, List.mem_filter, Bool.and_eq_true, matchesSearch_iff,
      matchesCategory_iff]
  · intro st q h
    simp [setSearch, h]
  · intro st c h
    simp [setCategory, h]

/-- Witness for C6: typing a fresh search term on the initial state puts
the page back to 1. -/
theorem C6_filtered_view_characterization_witness :
    (setSearch initCatalogState "siliguri").currentPage = 1 :=
  C6_filtered_view_characterization.2.1 initCatalogState "siliguri" (by decide)

/-- Claim C7: a failed remote fetch (non-success status or thrown error)
yields exactly the state of a successful fetch of an empty collection —
loading resolved to false, no remote records, and a catalog of exactly
the 15 static records. -/
theorem C7_fetch_failure_empty_equiv (pick : Nat → Nat) (fmtDate : String → String) :
    applyFetch pick fmtDate initCatalogState FetchResult.httpError =
        applyFetch pick fmtDate initCatalogState (FetchResult.ok [])
    ∧ applyFetch pick fmtDate initCatalogState FetchResult.networkError =
        applyFetch pick fmtDate initCatalogState (FetchResult.ok [])
    ∧ (applyFetch pick fmtDate initCatalogState FetchResult.httpError).loading = false
    ∧ (applyFetch pick fmtDate initCatalogState FetchResult.networkError).loading = false
    ∧ (applyFetch pick fmtDate initCatalogState FetchResult.httpError).pseoPages = []
    ∧ allArticles (applyFetch pick fmtDate initCatalogState FetchResult.httpError) =
        staticArticles
    ∧ staticArticles.length = 15 := by
  refine ⟨?_, ?_, rfl, rfl, rfl, ?_, rfl⟩
  · simp [applyFetch, initCatalogState]
  · simp [applyFetch, initCatalogState]
  · simp [allArticles, applyFetch, initCatalogState]

/-! ## Reachability invariant of the catalog view -/

theorem one_le_totalFilteredPages (st : CatalogState)
    (h : 0 < (filteredArticles st).length) : 1 ≤ totalFilteredPages st := by
  unfold totalFilteredPages itemsPerPage
  omega

theorem len_pos_of_tfp (st : CatalogState)
    (h : 0 < totalFilteredPages st) : 0 < (filteredArticles st).length := by
  unfold totalFilteredPages itemsPerPage at h
  omega

theorem reachable_inv (st : CatalogState) (h : Reachable st) :
    (st.loading = true → st = initCatalogState)
    ∧ 1 ≤ st.currentPage
    ∧ (0 < (filteredArticles st).length → st.currentPage ≤ totalFilteredPages st) := by
  induction h with
  | init =>
    exact ⟨fun _ => rfl, le_refl 1, fun h0 => one_le_totalFilteredPages _ h0⟩
  | fetched st pick fmtDate r hst hload ih =>
    have hinit := ih.1 hload
    subst hinit
    cases r with
    | ok pages =>
      exact ⟨fun hc => absurd hc (by simp [applyFetch]), le_refl 1,
        fun h0 => one_le_totalFilteredPages _ h0⟩
    | httpError =>
      exact ⟨fun hc => absurd hc (by simp [applyFetch]), le_refl 1,
        fun h0 => one_le_totalFilteredPages _ h0⟩
    | networkError =>
      exact ⟨fun hc => absurd hc (by simp [applyFetch]), le_refl 1,
        fun h0 => one_le_totalFilteredPages _ h0⟩
  | search st q hst hload ih =>
    by_cases hq : (q == st.searchQuery) = true
    · rw [setSearch, if_pos hq]
      exact ih
    · rw [setSearch, if_neg hq]
      refine ⟨fun hc => absurd (hload ▸ hc) (by simp), le_refl 1,
        fun h0 => one_le_totalFilteredPages _ h0⟩
  | category st c hst hload ih =>
    by_cases hc : (c == st.selectedCategory) = true
    · rw [setCategory, if_pos hc]
      exact ih
    · rw [setCategory, if_neg hc]
      refine ⟨fun hcc => absurd (hload ▸ hcc) (by simp), le_refl 1,
        fun h0 => one_le_totalFilteredPages _ h0⟩
  | prev st hst hload htp ih =>
    refine ⟨fun hc => absurd (hload ▸ hc) (by simp), Nat.le_max_right _ 1, fun _ => ?_⟩
    have hlen : 0 < (filteredArticles st).length := len_pos_of_tfp st (by omega)
    have hb := ih.2.2 hlen
    show max (st.currentPage - 1) 1 ≤ totalFilteredPages st
    omega
  | next st hst hload htp ih =>
    refine ⟨fun hc => absurd (hload ▸ hc) (by simp), ?_, fun _ => ?_⟩
    · show 1 ≤ min (st.currentPage + 1) (totalFilteredPages st)
      have := ih.2.1
      omega
    · show min (st.currentPage + 1) (totalFilteredPages st) ≤ totalFilteredPages st
      omega
  | select st i hst hload htp hi ih =>
    refine ⟨fun hc => absurd (hload ▸ hc) (by simp), by show 1 ≤ i + 1; omega, fun _ => ?_⟩
    show i + 1 ≤ totalFilteredPages st
    omega
  | selectLast st hst hload htp h5 ih =>
    exact ⟨fun hc => absurd (hload ▸ hc) (by simp), by show 1 ≤ totalFilteredPages st; omega,
      fun _ => le_refl _⟩

/-- Claim C8: in every UI-reachable state of the insights page the
current page number is at least 1 and at most
⌈|filtered| / 12⌉ = (|filtered| + 11) / 12 whenever the filtered view is
nonempty; the displayed page is the 12-item slice of the filtered view
starting at (page − 1) × 12; and changing the search text or the
category resets the page to 1. -/
theorem C8_page_within_bounds (st : CatalogState) (h : Reachable st) :
    1 ≤ st.currentPage
    ∧ (0 < (filteredArticles st).length → st.currentPage ≤ totalFilteredPages st)
    ∧ totalFilteredPages st = ((filteredArticles st).length + 11) / 12
    ∧ paginatedArticles st =
        ((filteredArticles st).drop ((st.currentPage - 1) * 12)).take 12
    ∧ (∀ q, q ≠ st.searchQuery → (setSearch st q).currentPage = 1)
    ∧ (∀ c, c ≠ st.selectedCategory → (setCategory st c).currentPage = 1) := by
  have hi := reachable_inv st h
  refine ⟨hi.2.1, hi.2.2, rfl, rfl, ?_, ?_⟩
  · intro q hq
    simp [setSearch, hq]
  · intro c hc
    simp [setCategory, hc]

/-- Witness for C8: the invariant at the initial state, which is
reachable by definition. -/
theorem C8_page_within_bounds_witness :
    1 ≤ initCatalogState.currentPage
    ∧ (0 < (filteredArticles initCatalogState).length →
        initCatalogState.currentPage ≤ totalFilteredPages initCatalogState)
    ∧ totalFilteredPages initCatalogState =
        ((filteredArticles initCatalogState).length + 11) / 12
    ∧ paginatedArticles initCatalogState =
        ((filteredArticles initCatalogState).drop
          ((initCatalogState.currentPage - 1) * 12)).take 12
    ∧ (∀ q, q ≠ initCatalogState.searchQuery → (setSearch initCatalogState q).currentPage = 1)
    ∧ (∀ c, c ≠ initCatalogState.selectedCategory →
        (setCategory initCatalogState c).currentPage = 1) :=
  C8_page_within_bounds initCatalogState Reachable.init

end Moberry
